import Mathlib

/-!
Verification of the arbitrage bot core (`backend/app/arbitrage.py`).

The embedding below translates the data model and the operations of the
`ArbitrageService` class into Lean: ticker quotes and the best-buy /
best-sell selection fold, spread computation and the trade branch of
`_scan_and_trade`, and the task-registry / subscriber-registry state with
`start_bot`, `stop_bot` and `broadcast`.  Exchange prices are modelled as
rationals; fallible collaborators (ticker fetches, order calls, websocket
sends) are modelled by `Option` inputs and explicit success flags.
-/
set_option autoImplicit false

namespace Arb

/-! ### Tickers and quote prices

A fetched ticker carries an `ask` and a `last` field, each possibly absent
(`None` in Python).  A whole fetch may fail, giving no ticker at all, which
is modelled by `Option Ticker` in the scan input.
-/
/-- A ticker returned by one exchange: `ask` and `last` price fields,
each possibly `None`. -/
structure Ticker where
  ask : Option ℚ
  last : Option ℚ
deriving DecidableEq

/-- Python truthiness of an optional price: `None` and `0` are falsy. -/
def truthy : Option ℚ → Bool
  | none => false
  | some x => x != 0

/-- The comparison price of a ticker, translating
`price = ticker['ask'] if ticker['ask'] else ticker['last']`
followed by the `if price is None: continue` guard:
the ask when it is truthy, otherwise the last price, possibly absent. -/
def quotePrice (t : Ticker) : Option ℚ :=
  if truthy t.ask then t.ask else t.last

/-- The spec's wording of the price rule, for comparison with `quotePrice`:
the ask price whenever one is *present*, otherwise the last price. -/
def quotePriceSpec (t : Ticker) : Option ℚ :=
  match t.ask with
  | some a => some a
  | none => t.last

/-- The scan input for one coin: the exchanges in iteration order, each
paired with the ticker its fetch produced (or `none` on failure). -/
abbrev ScanInput := List (String × Option Ticker)

/-- The valid quotes of a scan input: entries whose fetch succeeded and
whose `quotePrice` is present, in iteration order. -/
def validQuotes (l : ScanInput) : List (String × ℚ) :=
  l.filterMap (fun e => (e.2.bind quotePrice).map (fun p => (e.1, p)))

/-- One step of the best-buy / best-sell selection on a valid quote:
`best_buy` is replaced on a strictly smaller price, `best_sell` on a
strictly greater one, so ties keep the earlier quote. -/
def selStep (acc : Option (String × ℚ) × Option (String × ℚ)) (q : String × ℚ) :
    Option (String × ℚ) × Option (String × ℚ) :=
  ((match acc.1 with
    | none => some q
    | some b => if q.2 < b.2 then some q else some b),
   (match acc.2 with
    | none => some q
    | some s => if q.2 > s.2 then some q else some s))

/-- One iteration of the selection loop on a raw entry: skip a failed fetch
(`if not ticker: continue`) and a priceless ticker (`if price is None`),
otherwise perform the selection step. -/
def scanStep (acc : Option (String × ℚ) × Option (String × ℚ))
    (e : String × Option Ticker) :
    Option (String × ℚ) × Option (String × ℚ) :=
  match e.2.bind quotePrice with
  | none => acc
  | some p => selStep acc (e.1, p)

/-- The whole selection loop of `_scan_and_trade` for one coin: fold over
the fetched tickers, producing `best_buy` and `best_sell`. -/
def evalQuotes (l : ScanInput) : Option (String × ℚ) × Option (String × ℚ) :=
  l.foldl scanStep (none, none)

/-- Recursive form of the `best_buy` accumulator over valid quotes. -/
def bestBuyAux (b : String × ℚ) : List (String × ℚ) → String × ℚ
  | [] => b
  | q :: rest => bestBuyAux (if q.2 < b.2 then q else b) rest

/-- Recursive form of the `best_sell` accumulator over valid quotes. -/
def bestSellAux (s : String × ℚ) : List (String × ℚ) → String × ℚ
  | [] => s
  | q :: rest => bestSellAux (if q.2 > s.2 then q else s) rest

/-! ### Opportunity reporting and the trade branch

Translation of lines 173-238 of `_scan_and_trade`: the opportunity is
reported when both bests exist and the best sell price is positive; a trade
is attempted when the spread exceeds the slippage tolerance.  The success
of the two live order calls is an input (`buyOk`, `sellOk`), since the
exchange is an external collaborator.
-/
/-- Bot mode: `sandbox` simulates, `live` places real orders. -/
inductive Mode where
  | sandbox
  | live
deriving DecidableEq

/-- Trade outcome recorded in the trade log. -/
inductive TStatus where
  | executed
  | error
deriving DecidableEq

/-- The bot configuration fields the scan loop reads. -/
structure BotConfig where
  id : ℕ
  mode : Mode
  budget : ℚ
  maxTradeSize : ℚ
  slippageTolerance : ℚ
deriving DecidableEq

/-- The ticker message broadcast for a coin with a reported opportunity. -/
structure Opportunity where
  coin : String
  bestBuy : String × ℚ
  bestSell : String × ℚ
  spread : ℚ
deriving DecidableEq

/-- The trade log row written by `crud.create_trade_log`. -/
structure TradeRecord where
  coin : String
  buyExchange : String
  sellExchange : String
  priceBuy : ℚ
  priceSell : ℚ
  amount : ℚ
  profit : ℚ
  mode : Mode
  status : TStatus
deriving DecidableEq

/-- Everything a trade attempt produces: sizing, order-call count, status,
the persisted record and the budget after the update step. -/
structure TradeResult where
  tradeSize : ℚ
  amount : ℚ
  profit : ℚ
  status : TStatus
  orderCalls : ℕ
  record : TradeRecord
  newBudget : ℚ
deriving DecidableEq

/-- `spread = (best_sell[1] - best_buy[1]) / best_sell[1]`. -/
def spreadFraction (buy sell : ℚ) : ℚ :=
  (sell - buy) / sell

/-- The trade branch (`if spread > config.slippage_tolerance`): sizing,
order execution (two market order calls in live mode, the second only
when the first did not raise), unconditional trade logging, and the
budget update guarded by `mode == 'live' and status == 'executed'`. -/
def tradeCheck (cfg : BotConfig) (coin : String) (bb bs : String × ℚ)
    (spread : ℚ) (buyOk sellOk : Bool) : Option TradeResult :=
  if spread > cfg.slippageTolerance then
    let tradeSize := min cfg.maxTradeSize cfg.budget
    let amount := if bb.2 > 0 then tradeSize / bb.2 else 0
    let profit := if amount != 0 then (bs.2 - bb.2) * amount else 0
    let status : TStatus :=
      match cfg.mode with
      | Mode.sandbox => TStatus.executed
      | Mode.live => if buyOk && sellOk then TStatus.executed else TStatus.error
    let orderCalls : ℕ :=
      match cfg.mode with
      | Mode.sandbox => 0
      | Mode.live => if buyOk then 2 else 1
    let newBudget :=
      if cfg.mode = Mode.live ∧ status = TStatus.executed then cfg.budget - tradeSize
      else cfg.budget
    some ⟨tradeSize, amount, profit, status, orderCalls,
      ⟨coin, bb.1, bs.1, bb.2, bs.2, amount, profit, cfg.mode, status⟩, newBudget⟩
  else none

/-- Evaluation-and-trade for one coin: the first component is the broadcast
ticker message (reported opportunity), the second the trade attempt, both
`none` when no best pair exists or the best sell price is not positive. -/
def scanCoin (cfg : BotConfig) (coin : String) (l : ScanInput)
    (buyOk sellOk : Bool) : Option Opportunity × Option TradeResult :=
  match evalQuotes l with
  | (some bb, some bs) =>
    if bs.2 > 0 then
      (some ⟨coin, bb, bs, spreadFraction bb.2 bs.2⟩,
       tradeCheck cfg coin bb bs (spreadFraction bb.2 bs.2) buyOk sellOk)
    else (none, none)
  | _ => (none, none)

/-! ### Service state: task registry and subscribers

`ArbitrageService` holds `_tasks`, a map from `(user_id, config_id)` to the
spawned task, and `_subscribers`, a map from `user_id` to a set of
websockets.  A task handle is modelled by its key together with the state
its loop reaches immediately after spawn: `running` when the loop enters
the scan cycle, `terminated` when `_run_bot` returns early.  A ghost
counter `spawned` counts `asyncio.create_task` calls.
-/
/-- Whether a spawned loop is still running or has already returned. -/
inductive LoopStatus where
  | running
  | terminated
deriving DecidableEq

/-- One row of `user.exchange_keys`: the exchange name, its enabled flag,
and whether `getattr(ccxt, name)` succeeds for it. -/
structure ExchangeKey where
  exchange : String
  isEnabled : Bool
  ccxtSupported : Bool
deriving DecidableEq

/-- The user fields `_run_bot` reads. -/
structure User where
  id : ℕ
  exchangeKeys : List ExchangeKey
deriving DecidableEq

/-- A websocket observer; `sendOk` records whether `send_json` succeeds. -/
structure Observer where
  id : ℕ
  sendOk : Bool
deriving DecidableEq

/-- The mutable state of an `ArbitrageService` instance. -/
structure ArbitrageService where
  tasks : List ((ℕ × ℕ) × LoopStatus)
  spawned : ℕ
  subscribers : List (ℕ × List Observer)
deriving DecidableEq

/-- The enabled exchange keys, as filtered at the top of `_run_bot`. -/
def enabledExchanges (u : User) : List ExchangeKey :=
  u.exchangeKeys.filter (fun ek => ek.isEnabled)

/-- The keys for which a ccxt client is constructible (the `getattr`
succeeded); the others are skipped with an error log. -/
def constructibleClients (u : User) : List ExchangeKey :=
  (enabledExchanges u).filter (fun ek => ek.ccxtSupported)

/-- The state `_run_bot` reaches right after spawn: it returns at once when
no exchange is enabled or no client is constructible, and otherwise enters
the endless scan loop. -/
def runBotStatus (u : User) : LoopStatus :=
  if (enabledExchanges u).isEmpty then LoopStatus.terminated
  else if (constructibleClients u).isEmpty then LoopStatus.terminated
  else LoopStatus.running

/-- `key in self._tasks`. -/
def hasKey (s : ArbitrageService) (key : ℕ × ℕ) : Bool :=
  s.tasks.any (fun h => decide (h.1 = key))

/-- Number of registry entries for one key. -/
def countKey (s : ArbitrageService) (key : ℕ × ℕ) : ℕ :=
  (s.tasks.filter (fun h => decide (h.1 = key))).length

/-- `start_bot`: a no-op when the key is registered, otherwise spawn
`_run_bot` and record the handle. -/
def startBot (s : ArbitrageService) (u : User) (cfg : BotConfig) : ArbitrageService :=
  if hasKey s (u.id, cfg.id) then s
  else
    { s with
      tasks := s.tasks ++ [((u.id, cfg.id), runBotStatus u)],
      spawned := s.spawned + 1 }

/-- `stop_bot`: cancel, await and delete the handle when the key is
registered, otherwise a no-op. -/
def stopBot (s : ArbitrageService) (uid cid : ℕ) : ArbitrageService :=
  if hasKey s (uid, cid) then
    { s with tasks := s.tasks.filter (fun h => !decide (h.1 = (uid, cid))) }
  else s

/-! ### Broadcast

`broadcast` looks the user up in `_subscribers`, sends to every websocket
of the snapshot `list(...)`, collects failing ones in `to_remove`, and
discards them from the set after the delivery loop.  Events record the
order of send attempts and removals.
-/
/-- An observable step of `broadcast`: a `send_json` attempt or a
`discard` of an observer from the subscriber set. -/
inductive BEvent where
  | send (o : Observer)
  | removeObs (o : Observer)
deriving DecidableEq

/-- First lookup of `self._subscribers[user_id]` (first matching entry). -/
def lookupSubs (subs : List (ℕ × List Observer)) (uid : ℕ) : Option (List Observer) :=
  (subs.find? (fun e => decide (e.1 = uid))).map (fun e => e.2)

/-- Replace the value of the first entry with the given key, as mutating
the set object stored in the dict does. -/
def setSubs : List (ℕ × List Observer) → ℕ → List Observer → List (ℕ × List Observer)
  | [], uid, obs => [(uid, obs)]
  | e :: rest, uid, obs =>
    if e.1 = uid then (uid, obs) :: rest else e :: setSubs rest uid obs

/-- The delivery loop: every observer of the snapshot receives a send
attempt; a failing one is appended to `to_remove`.  Returns `to_remove`
and the trace of send events. -/
def deliverLoop (obs : List Observer) : List Observer × List BEvent :=
  obs.foldl
    (fun acc o =>
      ((if o.sendOk then acc.1 else acc.1 ++ [o]), acc.2 ++ [BEvent.send o]))
    ([], [])

/-- The removal loop: each observer of `to_remove` is discarded from the
subscriber set, after the delivery loop has completed. -/
def removePass (obs toRemove : List Observer) : List Observer × List BEvent :=
  toRemove.foldl
    (fun acc o => (acc.1.filter (fun x => !decide (x = o)), acc.2 ++ [BEvent.removeObs o]))
    (obs, [])

/-- `broadcast(user_id, message)`: early return when the user has no
subscriber entry; otherwise the delivery loop followed by the removal
loop.  Returns the new state and the event trace. -/
def broadcast (s : ArbitrageService) (uid : ℕ) : ArbitrageService × List BEvent :=
  match lookupSubs s.subscribers uid with
  | none => (s, [])
  | some obs =>
    let dl := deliverLoop obs
    let rp := removePass obs dl.1
    ({ s with subscribers := setSubs s.subscribers uid rp.1 }, dl.2 ++ rp.2)

/-! ### Concrete inputs

Worked examples: the spec's quote set A:100, B:105, C:98, a set with a
zero last price, a set with a negative ask, and a single-quote set.
-/
/-- The spec's worked quote set: A at 100, B at 105, C at 98, all asks. -/
def ex1 : ScanInput :=
  [("A", some ⟨some 100, none⟩), ("B", some ⟨some 105, none⟩), ("C", some ⟨some 98, none⟩)]

/-- A quote whose last price is zero next to an ask of 5. -/
def exZero : ScanInput :=
  [("a", some ⟨none, some 0⟩), ("b", some ⟨some 5, none⟩)]

/-- A negative ask next to an ask of 5. -/
def exNeg : ScanInput :=
  [("a", some ⟨some (-1), none⟩), ("b", some ⟨some 5, none⟩)]

/-- A single valid quote at price 4. -/
def exOne : ScanInput :=
  [("a", some ⟨some 4, none⟩)]

/-- Sandbox config: budget 50, max trade 100, slippage tolerance 1/200. -/
def cfg0 : BotConfig := ⟨1, Mode.sandbox, 50, 100, 1/200⟩

/-- Live config: budget 50, max trade 100, slippage tolerance 1/2. -/
def cfgLive : BotConfig := ⟨3, Mode.live, 50, 100, 1/2⟩

/-- Sandbox config with a negative slippage tolerance. -/
def cfgNegTol : BotConfig := ⟨4, Mode.sandbox, 50, 100, -1⟩

/-- The coin symbol used by the concrete scans. -/
def coinX : String := "X"

/-- The opportunity reported on `exZero`: best buy at 0, best sell at 5,
spread exactly 1. -/
def oppZero : Opportunity := ⟨coinX, ("a", 0), ("b", 5), 1⟩

/-- The opportunity reported on `ex1`: best buy C:98, best sell B:105,
spread 7/105 = 1/15. -/
def opp1 : Opportunity := ⟨coinX, ("C", 98), ("B", 105), 1/15⟩

/-- The opportunity reported on `exNeg`: best buy at -1, best sell at 5,
spread (5 - (-1)) / 5 = 6/5. -/
def oppNeg : Opportunity := ⟨coinX, ("a", -1), ("b", 5), 6/5⟩

/-- The trade result on `exZero` in live mode with tolerance 1/2: spread 1
triggers, size min(100, 50) = 50, amount 0 since the best buy price is 0,
yet both order calls are made and a trade record is created. -/
def trZero : TradeResult :=
  ⟨50, 0, 0, TStatus.executed, 2,
    ⟨coinX, "a", "b", 0, 5, 0, 0, Mode.live, TStatus.executed⟩, 0⟩

/-- The sandbox trade result on `ex1` with `cfg0`: size 50, amount 50/98,
profit 7·(50/98), status executed, no order calls, budget unchanged. -/
def trSandbox : TradeResult :=
  ⟨50, 25/49, 25/7, TStatus.executed, 0,
    ⟨coinX, "C", "B", 98, 105, 25/49, 25/7, Mode.sandbox, TStatus.executed⟩, 50⟩

/-- A user with no exchange keys: `_run_bot` returns immediately. -/
def userEmpty : User := ⟨7, []⟩

/-- A config whose id is 3 (the other fields are unused by the manager). -/
def cfgId3 : BotConfig := ⟨3, Mode.sandbox, 0, 0, 0⟩

/-- The service in its initial state: empty registries. -/
def svc0 : ArbitrageService := ⟨[], 0, []⟩

/-- A succeeding observer. -/
def obsA : Observer := ⟨1, true⟩

/-- A failing observer. -/
def obsB : Observer := ⟨2, false⟩

/-- A second succeeding observer. -/
def obsC : Observer := ⟨3, true⟩

/-- A service with three subscribers for user 1, one of them failing. -/
def svcB : ArbitrageService := ⟨[], 0, [(1, [obsA, obsB, obsC])]⟩

/-- A service whose user 2 has an empty subscriber set. -/
def svc9 : ArbitrageService := ⟨[], 0, [(2, [])]⟩

theorem foldl_scanStep_eq (l : ScanInput) :
    ∀ acc, l.foldl scanStep acc = (validQuotes l).foldl selStep acc := by
  induction l with
  | nil => intro acc; rfl
  | cons e rest ih =>
    intro acc
    cases h : e.2.bind quotePrice with
    | none =>
      simp only [List.foldl_cons, scanStep, h, validQuotes, List.filterMap_cons,
        Option.map_none]
      exact ih _
    | some p =>
      simp only [List.foldl_cons, scanStep, h, validQuotes, List.filterMap_cons,
        Option.map_some]
      exact ih _

theorem foldl_selStep_some (vs : List (String × ℚ)) :
    ∀ b s, vs.foldl selStep (some b, some s) =
      (some (bestBuyAux b vs), some (bestSellAux s vs)) := by
  induction vs with
  | nil => intro b s; rfl
  | cons q rest ih =>
    intro b s
    simp only [List.foldl_cons, selStep, bestBuyAux, bestSellAux]
    by_cases hb : q.2 < b.2 <;> by_cases hs : q.2 > s.2 <;>
      simp [hb, hs, ih]

theorem evalQuotes_eq_of_validQuotes (l : ScanInput) (q : String × ℚ)
    (vs : List (String × ℚ)) (h : validQuotes l = q :: vs) :
    evalQuotes l = (some (bestBuyAux q vs), some (bestSellAux q vs)) := by
  rw [evalQuotes, foldl_scanStep_eq, h, List.foldl_cons]
  have hstep : selStep (none, none) q = (some q, some q) := rfl
  rw [hstep, foldl_selStep_some]

theorem evalQuotes_eq_none (l : ScanInput) (h : validQuotes l = []) :
    evalQuotes l = (none, none) := by
  rw [evalQuotes, foldl_scanStep_eq, h]
  rfl

theorem bestBuyAux_le_init (vs : List (String × ℚ)) :
    ∀ b, (bestBuyAux b vs).2 ≤ b.2 := by
  induction vs with
  | nil => intro b; exact le_refl _
  | cons q rest ih =>
    intro b
    by_cases h : q.2 < b.2
    · simp only [bestBuyAux, if_pos h]
      exact le_trans (ih q) (le_of_lt h)
    · simp only [bestBuyAux, if_neg h]
      exact ih b

theorem bestBuyAux_le_mem (vs : List (String × ℚ)) :
    ∀ b q, q ∈ vs → (bestBuyAux b vs).2 ≤ q.2 := by
  induction vs with
  | nil => intro b q hq; cases hq
  | cons r rest ih =>
    intro b q hq
    rcases List.mem_cons.mp hq with h | h
    · subst h
      by_cases hr : q.2 < b.2
      · simp only [bestBuyAux, if_pos hr]
        exact bestBuyAux_le_init rest q
      · simp only [bestBuyAux, if_neg hr]
        exact le_trans (bestBuyAux_le_init rest b) (le_of_not_lt hr)
    · by_cases hr : r.2 < b.2 <;> simp only [bestBuyAux, if_pos, if_neg, hr] <;>
        [exact ih r q h; exact ih b q h]

theorem bestSellAux_init_le (vs : List (String × ℚ)) :
    ∀ s, s.2 ≤ (bestSellAux s vs).2 := by
  induction vs with
  | nil => intro s; exact le_refl _
  | cons q rest ih =>
    intro s
    by_cases h : q.2 > s.2
    · simp only [bestSellAux, if_pos h]
      exact le_trans (le_of_lt h) (ih q)
    · simp only [bestSellAux, if_neg h]
      exact ih s

theorem bestSellAux_mem_le (vs : List (String × ℚ)) :
    ∀ s q, q ∈ vs → q.2 ≤ (bestSellAux s vs).2 := by
  induction vs with
  | nil => intro s q hq; cases hq
  | cons r rest ih =>
    intro s q hq
    rcases List.mem_cons.mp hq with h | h
    · subst h
      by_cases hr : q.2 > s.2
      · simp only [bestSellAux, if_pos hr]
        exact bestSellAux_init_le rest q
      · simp only [bestSellAux, if_neg hr]
        exact le_trans (le_of_not_lt hr) (bestSellAux_init_le rest s)
    · by_cases hr : r.2 > s.2 <;> simp only [bestSellAux, if_pos, if_neg, hr] <;>
        [exact ih r q h; exact ih s q h]

theorem bestBuyAux_first (vs : List (String × ℚ)) :
    ∀ b, (b :: vs).find? (fun q => decide (q.2 ≤ (bestBuyAux b vs).2)) =
      some (bestBuyAux b vs) := by
  induction vs with
  | nil =>
    intro b
    exact List.find?_cons_of_pos _ (by simp [bestBuyAux])
  | cons q rest ih =>
    intro b
    by_cases hq : q.2 < b.2
    · simp only [bestBuyAux, if_pos hq]
      have hm : (bestBuyAux q rest).2 < b.2 := lt_of_le_of_lt (bestBuyAux_le_init rest q) hq
      rw [List.find?_cons_of_neg _ (by simp [not_le.mpr hm]), ih q]
    · simp only [bestBuyAux, if_neg hq]
      have hbq : b.2 ≤ q.2 := le_of_not_lt hq
      by_cases hb : b.2 ≤ (bestBuyAux b rest).2
      · have hEq : bestBuyAux b rest = b := by
          have := ih b
          rw [List.find?_cons_of_pos _ (by simp [hb])] at this
          exact (Option.some.inj this).symm
        rw [hEq]
        exact List.find?_cons_of_pos _ (by simp)
      · have hmb : (bestBuyAux b rest).2 < b.2 := lt_of_not_le hb
        have hrest : rest.find? (fun r => decide (r.2 ≤ (bestBuyAux b rest).2)) =
            some (bestBuyAux b rest) := by
          have := ih b
          rw [List.find?_cons_of_neg _ (by simp [hb])] at this
          exact this
        rw [List.find?_cons_of_neg _ (by simp [hb]),
          List.find?_cons_of_neg _ (by simp [not_le.mpr (lt_of_lt_of_le hmb hbq)]), hrest]

theorem bestSellAux_first (vs : List (String × ℚ)) :
    ∀ s, (s :: vs).find? (fun q => decide ((bestSellAux s vs).2 ≤ q.2)) =
      some (bestSellAux s vs) := by
  induction vs with
  | nil =>
    intro s
    exact List.find?_cons_of_pos _ (by simp [bestSellAux])
  | cons q rest ih =>
    intro s
    by_cases hq : q.2 > s.2
    · simp only [bestSellAux, if_pos hq]
      have hm : s.2 < (bestSellAux q rest).2 := lt_of_lt_of_le hq (bestSellAux_init_le rest q)
      rw [List.find?_cons_of_neg _ (by simp [not_le.mpr hm]), ih q]
    · simp only [bestSellAux, if_neg hq]
      have hqs : q.2 ≤ s.2 := le_of_not_lt hq
      by_cases hb : (bestSellAux s rest).2 ≤ s.2
      · have hEq : bestSellAux s rest = s := by
          have := ih s
          rw [List.find?_cons_of_pos _ (by simp [hb])] at this
          exact (Option.some.inj this).symm
        rw [hEq]
        exact List.find?_cons_of_pos _ (by simp)
      · have hmb : s.2 < (bestSellAux s rest).2 := lt_of_not_le hb
        have hrest : rest.find? (fun r => decide ((bestSellAux s rest).2 ≤ r.2)) =
            some (bestSellAux s rest) := by
          have := ih s
          rw [List.find?_cons_of_neg _ (by simp [hb])] at this
          exact this
        rw [List.find?_cons_of_neg _ (by simp [hb]),
          List.find?_cons_of_neg _ (by simp [not_le.mpr (lt_of_le_of_lt hqs hmb)]), hrest]

theorem deliverLoop_foldl (obs : List Observer) :
    ∀ (tr : List Observer) (evs : List BEvent),
      obs.foldl
        (fun acc o =>
          ((if o.sendOk then acc.1 else acc.1 ++ [o]), acc.2 ++ [BEvent.send o]))
        (tr, evs) =
      (tr ++ obs.filter (fun o => !o.sendOk), evs ++ obs.map BEvent.send) := by
  induction obs with
  | nil => intro tr evs; simp
  | cons o rest ih =>
    intro tr evs
    by_cases h : o.sendOk = true
    · simp [h, ih, List.filter_cons]
    · have h' : o.sendOk = false := by
        cases hso : o.sendOk
        · rfl
        · exact absurd hso h
      simp [h', ih, List.filter_cons]

theorem deliverLoop_eq (obs : List Observer) :
    deliverLoop obs = (obs.filter (fun o => !o.sendOk), obs.map BEvent.send) := by
  have := deliverLoop_foldl obs [] []
  simpa [deliverLoop] using this

theorem removePass_foldl (tr : List Observer) :
    ∀ (obs : List Observer) (evs : List BEvent),
      tr.foldl
        (fun acc o => (acc.1.filter (fun x => !decide (x = o)), acc.2 ++ [BEvent.removeObs o]))
        (obs, evs) =
      (obs.filter (fun x => !tr.any (fun o => decide (x = o))),
       evs ++ tr.map BEvent.removeObs) := by
  induction tr with
  | nil => intro obs evs; simp
  | cons o rest ih =>
    intro obs evs
    simp only [List.foldl_cons, ih, List.filter_filter, List.map_cons, List.any_cons,
      Prod.mk.injEq]
    refine ⟨?_, by simp⟩
    apply List.filter_congr
    intro x _
    by_cases hx : x = o <;> simp [hx]

theorem removePass_eq (obs toRemove : List Observer) :
    removePass obs toRemove =
      (obs.filter (fun x => !toRemove.any (fun o => decide (x = o))),
       toRemove.map BEvent.removeObs) := by
  have := removePass_foldl toRemove obs []
  simpa [removePass] using this

theorem setSubs_lookup_self (subs : List (ℕ × List Observer)) (uid : ℕ)
    (v : List Observer) (h : lookupSubs subs uid = some v) :
    setSubs subs uid v = subs := by
  induction subs with
  | nil => simp [lookupSubs] at h
  | cons e rest ih =>
    obtain ⟨k, w⟩ := e
    by_cases he : k = uid
    · have hfind : ((k, w) :: rest).find? (fun e => decide (e.1 = uid)) = some (k, w) :=
        List.find?_cons_of_pos _ (by simp [he])
      have hw : w = v := by
        rw [lookupSubs, hfind] at h
        exact Option.some.inj h
      simp [setSubs, he, hw]
    · have hfind : ((k, w) :: rest).find? (fun e => decide (e.1 = uid)) =
          rest.find? (fun e => decide (e.1 = uid)) :=
        List.find?_cons_of_neg _ (by simp [he])
      have hrest : lookupSubs rest uid = some v := by
        rw [lookupSubs, hfind] at h
        exact h
      simp [setSubs, he, ih hrest]

theorem lookupSubs_setSubs (subs : List (ℕ × List Observer)) (uid : ℕ)
    (obs : List Observer) :
    lookupSubs (setSubs subs uid obs) uid = some obs := by
  induction subs with
  | nil => simp [setSubs, lookupSubs]
  | cons e rest ih =>
    obtain ⟨k, w⟩ := e
    by_cases he : k = uid
    · simp [setSubs, he, lookupSubs]
    · have hfind : ((k, w) :: setSubs rest uid obs).find? (fun e => decide (e.1 = uid)) =
          (setSubs rest uid obs).find? (fun e => decide (e.1 = uid)) :=
        List.find?_cons_of_neg _ (by simp [he])
      rw [lookupSubs] at ih ⊢
      simp only [setSubs, if_neg he]
      rw [hfind]
      exact ih

theorem evalQuotes_ex1 : evalQuotes ex1 = (some ("C", 98), some ("B", 105)) := by
  simp only [evalQuotes, ex1, List.foldl_cons, List.foldl_nil, scanStep, selStep,
    quotePrice, truthy, Option.bind_some]
  norm_num

theorem evalQuotes_exZero : evalQuotes exZero = (some ("a", 0), some ("b", 5)) := by
  simp only [evalQuotes, exZero, List.foldl_cons, List.foldl_nil, scanStep, selStep,
    quotePrice, truthy, Option.bind_some]
  norm_num

theorem evalQuotes_exNeg : evalQuotes exNeg = (some ("a", -1), some ("b", 5)) := by
  simp only [evalQuotes, exNeg, List.foldl_cons, List.foldl_nil, scanStep, selStep,
    quotePrice, truthy, Option.bind_some]
  norm_num

theorem validQuotes_ex1 : validQuotes ex1 = [("A", 100), ("B", 105), ("C", 98)] := by
  simp only [validQuotes, ex1, List.filterMap_cons, List.filterMap_nil, Option.bind_some,
    quotePrice, truthy]
  norm_num

theorem validQuotes_exOne : validQuotes exOne = [("a", 4)] := by
  simp only [validQuotes, exOne, List.filterMap_cons, List.filterMap_nil, Option.bind_some,
    quotePrice, truthy]
  norm_num

/-! ### The claims -/
/-- C1: for every quote set with at least one valid quote, the evaluator
returns a best buy whose price is a lower bound of all valid quote prices
and a best sell whose price is an upper bound, and on price ties each
winner is the first-encountered quote in exchange iteration order (it is
the first valid quote whose price reaches the respective bound). -/
theorem C1_best_selection (l : ScanInput) (h : validQuotes l ≠ []) :
    ∃ bb bs, evalQuotes l = (some bb, some bs) ∧
      (∀ q ∈ validQuotes l, bb.2 ≤ q.2 ∧ q.2 ≤ bs.2) ∧
      (validQuotes l).find? (fun q => decide (q.2 ≤ bb.2)) = some bb ∧
      (validQuotes l).find? (fun q => decide (bs.2 ≤ q.2)) = some bs := by
  obtain ⟨q, vs, hv⟩ := List.exists_cons_of_ne_nil h
  refine ⟨bestBuyAux q vs, bestSellAux q vs,
    evalQuotes_eq_of_validQuotes l q vs hv, ?_, ?_, ?_⟩
  · intro r hr
    rw [hv] at hr
    rcases List.mem_cons.mp hr with h1 | h1
    · subst h1
      exact ⟨bestBuyAux_le_init vs r, bestSellAux_init_le vs r⟩
    · exact ⟨bestBuyAux_le_mem vs q r h1, bestSellAux_mem_le vs q r h1⟩
  · rw [hv]
    exact bestBuyAux_first vs q
  · rw [hv]
    exact bestSellAux_first vs q

/-- Witness for C1 on the quote set A:100, B:105, C:98. -/
theorem C1_best_selection_witness :
    validQuotes ex1 ≠ [] ∧
    (∃ bb bs, evalQuotes ex1 = (some bb, some bs) ∧
      (∀ q ∈ validQuotes ex1, bb.2 ≤ q.2 ∧ q.2 ≤ bs.2) ∧
      (validQuotes ex1).find? (fun q => decide (q.2 ≤ bb.2)) = some bb ∧
      (validQuotes ex1).find? (fun q => decide (bs.2 ≤ q.2)) = some bs) :=
  ⟨by simp [validQuotes_ex1], C1_best_selection ex1 (by simp [validQuotes_ex1])⟩

/-- C2 counterexample: on the quote set with a zero last price next to an
ask of 5, an opportunity is reported with best sell price 5 > 0 yet its
spread fraction is (5 - 0) / 5 = 1, not strictly less than 1. -/
theorem C2_counterexample :
    (scanCoin cfgLive coinX exZero true true).1 = some oppZero ∧
    0 < oppZero.bestSell.2 ∧ ¬ oppZero.spread < 1 := by
  refine ⟨?_, by norm_num [oppZero], by norm_num [oppZero]⟩
  simp only [scanCoin, evalQuotes_exZero]
  norm_num [spreadFraction, oppZero]

/-- C2 as amended: a reported opportunity's spread is strictly less than 1
whenever its best **buy** price is also positive (the code permits a valid
quote of price 0, which yields spread exactly 1); and no opportunity is
reported - and no trade considered - when no valid quote exists or the
best sell price is not positive. -/
theorem C2_amended_spread (cfg : BotConfig) (coin : String) (l : ScanInput)
    (b1 b2 : Bool) :
    (∀ o, (scanCoin cfg coin l b1 b2).1 = some o → 0 < o.bestBuy.2 → o.spread < 1) ∧
    (validQuotes l = [] → scanCoin cfg coin l b1 b2 = (none, none)) ∧
    (∀ bb bs, evalQuotes l = (bb, some bs) → bs.2 ≤ 0 →
      scanCoin cfg coin l b1 b2 = (none, none)) := by
  refine ⟨?_, ?_, ?_⟩
  · intro o ho hbb
    rcases hev : evalQuotes l with ⟨obb, obs⟩
    cases obb with
    | none => simp [scanCoin, hev] at ho
    | some bb =>
      cases obs with
      | none => simp [scanCoin, hev] at ho
      | some bs =>
        by_cases hpos : bs.2 > 0
        · simp only [scanCoin, hev, if_pos hpos] at ho
          have := Option.some.inj ho
          subst this
          simp only [spreadFraction]
          rw [div_lt_one hpos]
          simp only at hbb
          linarith
        · simp [scanCoin, hev, if_neg hpos] at ho
  · intro hv
    simp [scanCoin, evalQuotes_eq_none l hv]
  · intro bb bs hev hle
    cases bb with
    | none => simp [scanCoin, hev]
    | some b => simp [scanCoin, hev, not_lt.mpr hle]

/-- Witness for the amended C2 on the quote set A:100, B:105, C:98. -/
theorem C2_amended_spread_witness :
    (scanCoin cfg0 coinX ex1 true true).1 = some opp1 ∧
    0 < opp1.bestBuy.2 ∧ opp1.spread < 1 :=
  have hev : (scanCoin cfg0 coinX ex1 true true).1 = some opp1 := by
    simp only [scanCoin, evalQuotes_ex1]
    norm_num [spreadFraction, opp1]
  ⟨hev, by norm_num [opp1],
    (C2_amended_spread cfg0 coinX ex1 true true).1 opp1 hev (by norm_num [opp1])⟩

/-- C10 counterexample: with a valid quote of price -1 next to an ask of 5
(the code places no sign restriction on quote prices), the emitted ticker
has spread 6/5, outside [0, 1]. -/
theorem C10_counterexample :
    (scanCoin cfgLive coinX exNeg true true).1 = some oppNeg ∧
    ¬ oppNeg.spread ≤ 1 := by
  refine ⟨?_, by norm_num [oppNeg]⟩
  simp only [scanCoin, evalQuotes_exNeg]
  norm_num [spreadFraction, oppNeg]

/-- C10 as amended: for every reported opportunity the best buy price is
at most the best sell price, so the spread is never negative; the spread
is at most 1 provided the best buy price is nonnegative (a negative valid
quote price pushes it above 1); and with exactly one valid quote of
positive price the reported spread is exactly 0 and a trade is attempted
iff the slippage tolerance is negative. -/
theorem C10_amended_spread_range (cfg : BotConfig) (coin : String) (l : ScanInput)
    (b1 b2 : Bool) :
    (∀ o, (scanCoin cfg coin l b1 b2).1 = some o →
      o.bestBuy.2 ≤ o.bestSell.2 ∧ 0 ≤ o.spread ∧ (0 ≤ o.bestBuy.2 → o.spread ≤ 1)) ∧
    (∀ q : String × ℚ, validQuotes l = [q] → 0 < q.2 →
      (scanCoin cfg coin l b1 b2).1 = some ⟨coin, q, q, 0⟩ ∧
      ((scanCoin cfg coin l b1 b2).2.isSome ↔ cfg.slippageTolerance < 0)) := by
  constructor
  · intro o ho
    rcases hev : evalQuotes l with ⟨obb, obs⟩
    cases obb with
    | none => simp [scanCoin, hev] at ho
    | some bb =>
      cases obs with
      | none => simp [scanCoin, hev] at ho
      | some bs =>
        by_cases hpos : bs.2 > 0
        · simp only [scanCoin, hev, if_pos hpos] at ho
          have := Option.some.inj ho
          subst this
          have hbbs : bb.2 ≤ bs.2 := by
            cases hv : validQuotes l with
            | nil =>
              rw [evalQuotes_eq_none l hv] at hev
              simp at hev
            | cons q vs =>
              rw [evalQuotes_eq_of_validQuotes l q vs hv] at hev
              obtain ⟨h1, h2⟩ := Prod.mk.injEq .. ▸ hev
              rw [← Option.some.inj h1, ← Option.some.inj h2]
              exact le_trans (bestBuyAux_le_init vs q) (bestSellAux_init_le vs q)
          refine ⟨hbbs, ?_, ?_⟩
          · simp only [spreadFraction]
            exact div_nonneg (by linarith) (le_of_lt hpos)
          · intro h0
            simp only at h0
            simp only [spreadFraction]
            rw [div_le_one hpos]
            linarith
        · simp [scanCoin, hev, if_neg hpos] at ho
  · intro q hv hq
    have hev : evalQuotes l = (some q, some q) := by
      have := evalQuotes_eq_of_validQuotes l q [] hv
      simpa [bestBuyAux, bestSellAux] using this
    have hsp : spreadFraction q.2 q.2 = 0 := by
      simp [spreadFraction]
    constructor
    · simp only [scanCoin, hev, if_pos hq, hsp]
    · simp only [scanCoin, hev, if_pos hq, hsp, tradeCheck]
      by_cases htol : cfg.slippageTolerance < 0
      · simp [htol]
      · simp [htol]

/-- Witness for the amended C10 on the single-quote set at price 4 with a
negative slippage tolerance: spread 0 and a trade is attempted. -/
theorem C10_amended_spread_range_witness :
    (scanCoin cfgNegTol coinX exOne true true).1 = some ⟨coinX, ("a", 4), ("a", 4), 0⟩ ∧
    ((scanCoin cfgNegTol coinX exOne true true).2.isSome ↔ cfgNegTol.slippageTolerance < 0) :=
  (C10_amended_spread_range cfgNegTol coinX exOne true true).2 ("a", 4)
    validQuotes_exOne (by norm_num)

/-- C3 counterexample: with best buy price 0 (≤ 0) and spread 1 above the
tolerance, the code still attempts the trade: the amount is 0 but two
order calls are made and a trade record is persisted, contradicting the
claim that no trade occurs. -/
theorem C3_counterexample :
    (scanCoin cfgLive coinX exZero true true).2 = some trZero := by
  simp only [scanCoin, evalQuotes_exZero]
  norm_num [spreadFraction, tradeCheck, trZero, cfgLive]

/-- C3 as amended: when an opportunity is reported, a trade is attempted
exactly when the spread exceeds the slippage tolerance; the trade size in
quote currency is min(maxTradeSize, budget); the amount is size / bestBuy
when the best buy price is positive; and when the best buy price is ≤ 0
the amount is 0 but the trade attempt still proceeds - a trade record is
created (with amount 0) and in live mode order calls are still made. -/
theorem C3_amended_trade (cfg : BotConfig) (coin : String) (l : ScanInput)
    (b1 b2 : Bool) (bb bs : String × ℚ)
    (hev : evalQuotes l = (some bb, some bs)) (hpos : 0 < bs.2) :
    ((scanCoin cfg coin l b1 b2).2.isSome ↔
      cfg.slippageTolerance < spreadFraction bb.2 bs.2) ∧
    (∀ tr, (scanCoin cfg coin l b1 b2).2 = some tr →
      tr.tradeSize = min cfg.maxTradeSize cfg.budget ∧
      (0 < bb.2 → tr.amount = tr.tradeSize / bb.2) ∧
      (bb.2 ≤ 0 → tr.amount = 0 ∧ tr.record.amount = 0 ∧
        (cfg.mode = Mode.live → 0 < tr.orderCalls))) := by
  have hsc : (scanCoin cfg coin l b1 b2).2 =
      tradeCheck cfg coin bb bs (spreadFraction bb.2 bs.2) b1 b2 := by
    simp only [scanCoin, hev, if_pos hpos]
  rw [hsc]
  constructor
  · by_cases hsp : cfg.slippageTolerance < spreadFraction bb.2 bs.2
    · simp [tradeCheck, hsp]
    · simp [tradeCheck, hsp]
  · intro tr htr
    by_cases hsp : cfg.slippageTolerance < spreadFraction bb.2 bs.2
    · simp only [tradeCheck, if_pos hsp] at htr
      have := Option.some.inj htr
      subst this
      refine ⟨rfl, ?_, ?_⟩
      · intro hb
        simp [if_pos hb]
      · intro hb
        have hnb : ¬ bb.2 > 0 := not_lt.mpr hb
        refine ⟨by simp [if_neg hnb], by simp [if_neg hnb], ?_⟩
        intro hm
        simp only [hm]
        cases b1 <;> norm_num
    · simp [tradeCheck, if_neg hsp] at htr

/-- Witness for the amended C3 on the quote set A:100, B:105, C:98 with
the sandbox config: spread 1/15 exceeds tolerance 1/200, so a trade is
attempted, and its size is min(100, 50) = 50. -/
theorem C3_amended_trade_witness :
    ((scanCoin cfg0 coinX ex1 true true).2.isSome ↔
      cfg0.slippageTolerance < spreadFraction 98 105) ∧
    (∀ tr, (scanCoin cfg0 coinX ex1 true true).2 = some tr →
      tr.tradeSize = min cfg0.maxTradeSize cfg0.budget ∧
      (0 < (98 : ℚ) → tr.amount = tr.tradeSize / 98) ∧
      ((98 : ℚ) ≤ 0 → tr.amount = 0 ∧ tr.record.amount = 0 ∧
        (cfg0.mode = Mode.live → 0 < tr.orderCalls))) :=
  C3_amended_trade cfg0 coinX ex1 true true ("C", 98) ("B", 105)
    evalQuotes_ex1 (by norm_num)

/-- C5: after any trade attempt the budget is decremented by the trade
size exactly when the mode is live and the status is executed; in sandbox
mode, and in live mode with an error status, the budget is unchanged. -/
theorem C5_budget_update (cfg : BotConfig) (coin : String) (l : ScanInput)
    (b1 b2 : Bool) (tr : TradeResult)
    (htr : (scanCoin cfg coin l b1 b2).2 = some tr) :
    (cfg.mode = Mode.live ∧ tr.status = TStatus.executed →
      tr.newBudget = cfg.budget - tr.tradeSize) ∧
    (cfg.mode = Mode.sandbox ∨ tr.status = TStatus.error →
      tr.newBudget = cfg.budget) := by
  rcases hev : evalQuotes l with ⟨obb, obs⟩
  cases obb with
  | none => simp [scanCoin, hev] at htr
  | some bb =>
    cases obs with
    | none => simp [scanCoin, hev] at htr
    | some bs =>
      by_cases hpos : bs.2 > 0
      · simp only [scanCoin, hev, if_pos hpos] at htr
        by_cases hsp : cfg.slippageTolerance < spreadFraction bb.2 bs.2
        · simp only [tradeCheck, if_pos hsp] at htr
          have := Option.some.inj htr
          subst this
          cases hm : cfg.mode with
          | sandbox => simp [hm]
          | live => cases b1 <;> cases b2 <;> simp [hm]
        · simp [tradeCheck, if_neg hsp] at htr
      · simp [scanCoin, hev, if_neg hpos] at htr

theorem scanCoin_ex1_trade :
    (scanCoin cfg0 coinX ex1 true true).2 = some trSandbox := by
  simp only [scanCoin, evalQuotes_ex1]
  norm_num [spreadFraction, tradeCheck, trSandbox, cfg0]
  decide

/-- Witness for C5: the sandbox trade on `ex1` leaves the budget at 50. -/
theorem C5_budget_update_witness :
    (scanCoin cfg0 coinX ex1 true true).2 = some trSandbox ∧
    trSandbox.newBudget = cfg0.budget :=
  ⟨scanCoin_ex1_trade,
    (C5_budget_update cfg0 coinX ex1 true true trSandbox scanCoin_ex1_trade).2
      (Or.inl rfl)⟩

/-- C4 counterexample: starting a bot for a user with zero constructible
exchange clients spawns a loop that terminates at once, yet the handle
stays in the registry (nothing in `_run_bot` deletes it), and a later
start for the same key is blocked by the dead handle. -/
theorem C4_counterexample :
    (startBot svc0 userEmpty cfgId3).tasks = [((7, 3), LoopStatus.terminated)] ∧
    hasKey (startBot svc0 userEmpty cfgId3) (7, 3) = true ∧
    startBot (startBot svc0 userEmpty cfgId3) userEmpty cfgId3 =
      startBot svc0 userEmpty cfgId3 := by
  decide

theorem startBot_of_hasKey (s : ArbitrageService) (u : User) (cfg : BotConfig)
    (h : hasKey s (u.id, cfg.id) = true) : startBot s u cfg = s := by
  simp [startBot, h]

theorem startBot_of_not_hasKey (s : ArbitrageService) (u : User) (cfg : BotConfig)
    (h : hasKey s (u.id, cfg.id) = false) :
    startBot s u cfg =
      { s with
        tasks := s.tasks ++ [((u.id, cfg.id), runBotStatus u)],
        spawned := s.spawned + 1 } := by
  simp [startBot, h]

theorem hasKey_startBot (s : ArbitrageService) (u : User) (cfg : BotConfig) :
    hasKey (startBot s u cfg) (u.id, cfg.id) = true := by
  cases hk : hasKey s (u.id, cfg.id)
  · rw [startBot_of_not_hasKey s u cfg hk]
    simp [hasKey, List.any_append]
  · rw [startBot_of_hasKey s u cfg hk]
    exact hk

/-- C4 as amended: a handle is removed from the registry only by
`stop_bot`; a loop that terminates on its own (including the early exit
with zero constructible clients) leaves its handle registered, and while
it remains any further start for the same key is a no-op; `stop_bot`
removes the key, after which a start for it registers a handle again. -/
theorem C4_amended_registry (s : ArbitrageService) (u : User) (cfg : BotConfig)
    (uid cid : ℕ) :
    (hasKey s (u.id, cfg.id) = true → startBot s u cfg = s) ∧
    hasKey (stopBot s uid cid) (uid, cid) = false ∧
    (hasKey s (u.id, cfg.id) = false →
      hasKey (startBot s u cfg) (u.id, cfg.id) = true) := by
  refine ⟨?_, ?_, ?_⟩
  · intro h
    exact startBot_of_hasKey s u cfg h
  · by_cases h : hasKey s (uid, cid) = true
    · simp only [stopBot, h, if_true]
      rw [hasKey, List.any_eq_false]
      intro x hx
      have := (List.mem_filter.mp hx).2
      simpa using this
    · have hf : hasKey s (uid, cid) = false := by
        cases hk : hasKey s (uid, cid)
        · rfl
        · exact absurd hk h
      simp [stopBot, hf]
  · intro _
    exact hasKey_startBot s u cfg

/-- Witness for the amended C4: start a doomed bot, observe the blocked
restart, stop it, and observe that a new start registers the key again. -/
theorem C4_amended_registry_witness :
    startBot (startBot svc0 userEmpty cfgId3) userEmpty cfgId3 =
      startBot svc0 userEmpty cfgId3 ∧
    hasKey (stopBot (startBot svc0 userEmpty cfgId3) 7 3) (7, 3) = false ∧
    hasKey (startBot (stopBot (startBot svc0 userEmpty cfgId3) 7 3) userEmpty cfgId3)
      (7, 3) = true :=
  ⟨(C4_amended_registry (startBot svc0 userEmpty cfgId3) userEmpty cfgId3 7 3).1
      (by decide),
   (C4_amended_registry (startBot svc0 userEmpty cfgId3) userEmpty cfgId3 7 3).2.1,
   (C4_amended_registry (stopBot (startBot svc0 userEmpty cfgId3) 7 3) userEmpty cfgId3
      7 3).2.2 (by decide)⟩

/-- C7: starting a bot whose key is already registered is a no-op, and
starting twice from a state without the key leaves the registry of the
first start unchanged, exactly one handle for the key, and exactly one
spawned task in total. -/
theorem C7_start_idempotent (s : ArbitrageService) (u : User) (cfg : BotConfig) :
    (hasKey s (u.id, cfg.id) = true → startBot s u cfg = s) ∧
    (hasKey s (u.id, cfg.id) = false →
      startBot (startBot s u cfg) u cfg = startBot s u cfg ∧
      countKey (startBot s u cfg) (u.id, cfg.id) = 1 ∧
      (startBot (startBot s u cfg) u cfg).spawned = s.spawned + 1) := by
  constructor
  · intro h
    exact startBot_of_hasKey s u cfg h
  · intro h
    have hsame : startBot (startBot s u cfg) u cfg = startBot s u cfg :=
      startBot_of_hasKey (startBot s u cfg) u cfg (hasKey_startBot s u cfg)
    have hcount0 : s.tasks.filter (fun h => decide (h.1 = (u.id, cfg.id))) = [] := by
      rw [List.filter_eq_nil_iff]
      intro x hx
      have := List.any_eq_false.mp h x hx
      simpa using this
    refine ⟨hsame, ?_, ?_⟩
    · rw [startBot_of_not_hasKey s u cfg h]
      simp [countKey, List.filter_append, hcount0]
    · rw [hsame, startBot_of_not_hasKey s u cfg h]

/-- Witness for C7 from the empty service. -/
theorem C7_start_idempotent_witness :
    startBot (startBot svc0 userEmpty cfgId3) userEmpty cfgId3 =
      startBot svc0 userEmpty cfgId3 ∧
    countKey (startBot svc0 userEmpty cfgId3) (7, 3) = 1 ∧
    (startBot (startBot svc0 userEmpty cfgId3) userEmpty cfgId3).spawned =
      svc0.spawned + 1 :=
  (C7_start_idempotent svc0 userEmpty cfgId3).2 (by decide)

/-- C8: `broadcast` attempts delivery to every currently subscribed
observer (the trace starts with a send to each of them, in order,
regardless of failures — one observer's failure never suppresses another's
send); removals of the failed observers all come after the full delivery
pass; and the resulting subscriber set is exactly the observers whose send
succeeded. -/
theorem C8_broadcast_delivery (s : ArbitrageService) (uid : ℕ)
    (obs : List Observer) (h : lookupSubs s.subscribers uid = some obs) :
    (broadcast s uid).2 =
      obs.map BEvent.send ++
        (obs.filter (fun o => !o.sendOk)).map BEvent.removeObs ∧
    (∀ o ∈ obs, BEvent.send o ∈ (broadcast s uid).2) ∧
    lookupSubs (broadcast s uid).1.subscribers uid =
      some (obs.filter (fun o => o.sendOk)) := by
  have hb : broadcast s uid =
      ({ s with
         subscribers :=
           setSubs s.subscribers uid
             (obs.filter (fun x =>
               !(obs.filter (fun o => !o.sendOk)).any (fun o => decide (x = o)))) },
       obs.map BEvent.send ++
         (obs.filter (fun o => !o.sendOk)).map BEvent.removeObs) := by
    rw [broadcast, h]
    simp only [deliverLoop_eq, removePass_eq]
  have hfix : obs.filter (fun x =>
      !(obs.filter (fun o => !o.sendOk)).any (fun o => decide (x = o))) =
      obs.filter (fun o => o.sendOk) := by
    apply List.filter_congr
    intro x hx
    cases hsx : x.sendOk
    · have hmem : x ∈ obs.filter (fun o => !o.sendOk) :=
        List.mem_filter.mpr ⟨hx, by simp [hsx]⟩
      have hany : (obs.filter (fun o => !o.sendOk)).any (fun o => decide (x = o)) = true :=
        List.any_eq_true.mpr ⟨x, hmem, by simp⟩
      simp [hany]
    · have hany : (obs.filter (fun o => !o.sendOk)).any (fun o => decide (x = o)) = false := by
        rw [List.any_eq_false]
        intro y hy
        have hys := (List.mem_filter.mp hy).2
        simp only [decide_eq_true_eq]
        intro hxy
        rw [← hxy] at hys
        simp [hsx] at hys
      simp [hany]
  rw [hb, hfix]
  refine ⟨rfl, ?_, lookupSubs_setSubs _ _ _⟩
  intro o ho
  exact List.mem_append_left _ (List.mem_map_of_mem BEvent.send ho)

/-- Witness for C8 on a three-observer set whose middle observer fails. -/
theorem C8_broadcast_delivery_witness :
    (broadcast svcB 1).2 =
      [obsA, obsB, obsC].map BEvent.send ++
        ([obsA, obsB, obsC].filter (fun o => !o.sendOk)).map BEvent.removeObs ∧
    (∀ o ∈ [obsA, obsB, obsC], BEvent.send o ∈ (broadcast svcB 1).2) ∧
    lookupSubs (broadcast svcB 1).1.subscribers 1 =
      some ([obsA, obsB, obsC].filter (fun o => o.sendOk)) :=
  C8_broadcast_delivery svcB 1 [obsA, obsB, obsC] (by decide)

/-- C9: stopping a bot whose key is not registered is a no-op returning
the state unchanged, and broadcasting to a user with no subscriber entry,
or with an empty subscriber set, returns the state unchanged and performs
no delivery. -/
theorem C9_noop_paths (s : ArbitrageService) (uid cid uidB uidC : ℕ) :
    (hasKey s (uid, cid) = false → stopBot s uid cid = s) ∧
    (lookupSubs s.subscribers uidB = none → broadcast s uidB = (s, [])) ∧
    (lookupSubs s.subscribers uidC = some [] → broadcast s uidC = (s, [])) := by
  refine ⟨?_, ?_, ?_⟩
  · intro h
    simp [stopBot, h]
  · intro h
    rw [broadcast, h]
  · intro h
    rw [broadcast, h]
    simp only [deliverLoop_eq, removePass_eq, List.filter_nil, List.map_nil,
      List.any_nil]
    rw [setSubs_lookup_self s.subscribers uidC [] (by simpa using h)]
    rfl

/-- Witness for C9: stop of an unregistered key, broadcast to an unknown
user, and broadcast to a user with an empty subscriber set are no-ops. -/
theorem C9_noop_paths_witness :
    stopBot svc9 5 5 = svc9 ∧
    broadcast svc9 9 = (svc9, []) ∧
    broadcast svc9 2 = (svc9, []) :=
  ⟨(C9_noop_paths svc9 5 5 9 2).1 (by decide),
   (C9_noop_paths svc9 5 5 9 2).2.1 (by decide),
   (C9_noop_paths svc9 5 5 9 2).2.2 (by decide)⟩

/-- C6 counterexample: a ticker with a *present* ask of 0 and a last price
of 5.  The claim's price rule picks the ask (0), but the code tests
truthiness, so a zero ask falls through to the last price and the quote
enters selection at price 5. -/
theorem C6_counterexample :
    quotePrice ⟨some 0, some 5⟩ = some 5 ∧
    quotePriceSpec ⟨some 0, some 5⟩ = some 0 ∧
    validQuotes [(("E" : String), some ⟨some 0, some 5⟩)] = [("E", 5)] := by
  refine ⟨?_, rfl, ?_⟩
  · simp [quotePrice, truthy]
  · simp [validQuotes, quotePrice, truthy]

/-- C6 as amended: the comparison price is the ask price when it is
present *and nonzero*; when the ask is absent or zero it is the last
price; a ticker with neither an ask nor a last price has no comparison
price; and a ticker without a comparison price is excluded from best-buy /
best-sell selection. -/
theorem C6_amended_price_rule (t : Ticker) (name : String) (l₁ l₂ : ScanInput) :
    (∀ a : ℚ, t.ask = some a → a ≠ 0 → quotePrice t = some a) ∧
    ((t.ask = none ∨ t.ask = some 0) → quotePrice t = t.last) ∧
    (t.ask = none → t.last = none → quotePrice t = none) ∧
    (quotePrice t = none →
      validQuotes (l₁ ++ (name, some t) :: l₂) = validQuotes (l₁ ++ l₂)) := by
  refine ⟨?_, ?_, ?_, ?_⟩
  · intro a ha h0
    simp [quotePrice, truthy, ha, h0]
  · rintro (ha | ha) <;> simp [quotePrice, truthy, ha]
  · intro ha hl
    simp [quotePrice, truthy, ha, hl]
  · intro h
    simp [validQuotes, List.filterMap_append, List.filterMap_cons, h]

/-- Witness for the amended C6: a nonzero ask is used, a zero ask falls
back to the last price, an empty ticker has no price, and a priceless
ticker does not change the valid quote list. -/
theorem C6_amended_price_rule_witness :
    quotePrice ⟨some 3, some 7⟩ = some 3 ∧
    quotePrice ⟨some 0, some 7⟩ = (Ticker.mk (some 0) (some 7)).last ∧
    quotePrice ⟨none, none⟩ = none ∧
    validQuotes ([] ++ (("E" : String), some ⟨none, none⟩) :: []) =
      validQuotes ([] ++ []) :=
  ⟨(C6_amended_price_rule ⟨some 3, some 7⟩ "E" [] []).1 3 rfl (by norm_num),
   (C6_amended_price_rule ⟨some 0, some 7⟩ "E" [] []).2.1 (Or.inr rfl),
   (C6_amended_price_rule ⟨none, none⟩ "E" [] []).2.2.1 rfl rfl,
   (C6_amended_price_rule ⟨none, none⟩ "E" [] []).2.2.2 (by simp [quotePrice, truthy])⟩

end Arb
